import Mathlib

/-!
Verification development for the feishuBot repository.

Strings from the TypeScript source are modelled as `List Char`.  JavaScript
string builtins used by the code (`trim`, `trimStart`, `replace` with a
string pattern, `lastIndexOf` with a fromIndex) are given explicit
executable models below.  Stateful classes are modelled by explicit state
records and step functions; the single-threaded JS event loop lets every
handler run to completion, so each handler is one Lean function.
-/

/-- Whitespace test used by the models of the JS builtins `trim` and
`trimStart` (restricted to the ASCII whitespace the repository's texts can
contain). -/
def jsWhitespace (c : Char) : Bool :=
  c == ' ' || c == '\t' || c == '\n' || c == '\r'

/-- Model of the JS builtin `trimStart`. -/
def trimLeftStr (s : List Char) : List Char :=
  s.dropWhile jsWhitespace

/-- Right trim: drop trailing whitespace. -/
def trimRightStr (s : List Char) : List Char :=
  (s.reverse.dropWhile jsWhitespace).reverse

/-- Model of the JS builtin `trim` (both ends). -/
def trimStr (s : List Char) : List Char :=
  trimRightStr (trimLeftStr s)

/-- Index of the first occurrence of `pat` in `s` (model of the search done
by the JS builtin `replace` with a string pattern). -/
def firstMatchIdx (s pat : List Char) : Option Nat :=
  (List.range (s.length + 1)).find? (fun i => pat.isPrefixOf (s.drop i))

/-- Model of the JS builtin `s.replace(pat, '')`: remove the first
occurrence of `pat` from `s`; `s` unchanged when `pat` does not occur. -/
def removeFirst (s pat : List Char) : List Char :=
  match firstMatchIdx s pat with
  | none => s
  | some i => s.take i ++ s.drop (i + pat.length)

/-- Model of the JS builtin `s.lastIndexOf(c, fromIdx)` for a one-character
pattern: the largest index `i ≤ fromIdx` with `s[i] = c`, if any. -/
def lastIndexOfLe (s : List Char) (c : Char) (fromIdx : Nat) : Option Nat :=
  ((List.range (fromIdx + 1)).filter (fun i => s.get? i == some c)).getLast?

example : removeFirst ("hello <at>bot</at> world").toList ("<at>bot</at>").toList
    = ("hello  world").toList := by decide

example : trimStr ("  a b ").toList = ("a b").toList := by decide

example : lastIndexOfLe ("ab cd").toList ' ' 4 = some 2 := by decide

/-!
## Text segmenter — `FeishuRuntime.chunkText` (src/unnamed/part_001, lines 429-458)

The source loop is

    while (remaining.length > 0) {
      if (remaining.length <= limit) { chunks.push(remaining); break; }
      let breakPoint = remaining.lastIndexOf('\n', limit);
      if (breakPoint === -1 || breakPoint < limit * 0.5)
        breakPoint = remaining.lastIndexOf(' ', limit);
      if (breakPoint === -1 || breakPoint < limit * 0.5)
        breakPoint = limit;
      chunks.push(remaining.substring(0, breakPoint));
      remaining = remaining.substring(breakPoint).trimStart();
    }

`breakPoint < limit * 0.5` on integers is `2 * breakPoint < limit`.  The
loop is written with explicit fuel (initialised to the text length, which
the lemmas below show is always enough when `limit ≥ 1`; for `limit = 0`
the source loop itself never terminates, a case no caller exercises since
the configured limit defaults to 4000).
-/

/-- The half-limit fallback test: JS `breakPoint === -1 || breakPoint < limit * 0.5`. -/
def failsHalf (limit : Nat) : Option Nat → Bool
  | none => true
  | some i => 2 * i < limit

/-- The break point chosen by one iteration of the chunking loop: try the
last newline at or before `limit`, fall back to the last space under the
same half-limit rule, fall back to a hard cut at `limit`.  In the
non-fallback branch the option is necessarily `some` (`failsHalf` holds of
`none`), so `getD limit` returns the found index. -/
def breakPointOf (remaining : List Char) (limit : Nat) : Nat :=
  let bp0 := lastIndexOfLe remaining '\n' limit
  let bp1 := if failsHalf limit bp0 then lastIndexOfLe remaining ' ' limit else bp0
  if failsHalf limit bp1 then limit else bp1.getD limit

/-- The chunking loop of `chunkText`, with explicit fuel. -/
def chunkLoopF : Nat → Nat → List Char → List (List Char)
  | 0, _, _ => []
  | fuel + 1, limit, remaining =>
    if remaining = [] then []
    else if remaining.length ≤ limit then [remaining]
    else
      let bp := breakPointOf remaining limit
      remaining.take bp :: chunkLoopF fuel limit (trimLeftStr (remaining.drop bp))

/-- `FeishuRuntime.chunkText`: returns `[text]` when the text already fits,
otherwise runs the break-point loop. -/
def chunkText (text : List Char) (limit : Nat) : List (List Char) :=
  if text.length ≤ limit then [text] else chunkLoopF text.length limit text

example : chunkText ("ab cd").toList 3 = [("ab").toList, ("cd").toList] := by decide
example : chunkText ("abcdef").toList 3 = [("abc").toList, ("def").toList] := by decide
example : chunkText ([]) 1 = [[]] := by decide
example : chunkText ("ab" ++ "\n" ++ "cd").toList 4
    = [("ab").toList, ("cd").toList] := by decide

/-!
## Inbound normalizer — `FeishuRuntime.handleMessageReceive`
(src/unnamed/part_001, lines 83-181; the same admission logic appears in
src/src/channel/channel.ts lines 332-398 and src/src/handlers/event.ts).

The JSON content string of a message is modelled in already-parsed form
(`ParsedContent` holds the fields the handler reads after
`JSON.parse(message.content)`); JSON parsing itself is an external library
call.  `mentions` is `Option (List Mention)` (`undefined` vs an array);
`requireMention` is `Option Bool` (`undefined | true | false`).
-/

/-- One entry of `message.mentions`; the handler only reads `key`. -/
structure Mention where
  key : List Char
deriving DecidableEq, Repr

/-- Fields read from `JSON.parse(message.content)`. -/
structure ParsedContent where
  textField : Option (List Char)
  image_key : Option (List Char)
  file_name : Option (List Char)
deriving DecidableEq, Repr

/-- Fields of the inbound Feishu message object used by the handler. -/
structure FeishuMessage where
  chat_type : List Char
  message_type : List Char
  content : ParsedContent
  mentions : Option (List Mention)
  chat_id : List Char
  message_id : List Char
  parent_id : Option (List Char)
  create_time : Nat
deriving DecidableEq, Repr

/-- Fields of the sender object used by the handler
(`open_id` stands for `sender.sender_id.open_id`). -/
structure FeishuSender where
  sender_type : List Char
  open_id : List Char
deriving DecidableEq, Repr

/-- The raw event envelope: ids and message/sender at the schema 2.0
(top-level) and schema 1.0 (nested under `header`/`event`) paths. -/
structure FeishuEventData where
  event_id : Option (List Char)
  header_event_id : Option (List Char)
  message : Option FeishuMessage
  sender : Option FeishuSender
  event_message : Option FeishuMessage
  event_sender : Option FeishuSender
deriving DecidableEq, Repr

/-- The channel configuration fields the handler reads. -/
structure FeishuChannelCfg where
  requireMention : Option Bool
deriving DecidableEq, Repr

/-- Chat classification: `message.chat_type === 'p2p' ? 'direct' : 'group'`. -/
inductive ChatKind
  | direct
  | group
deriving DecidableEq, Repr

/-- One recorded attachment (`{type, name}` pushed by the handler). -/
structure Attachment where
  atype : List Char
  name : Option (List Char)
deriving DecidableEq, Repr

/-- The canonical inbound message built by the handler
(`InboundMessageContext` in the source, minus the constant
`channel: 'feishu'` field). -/
structure InboundMessageContext where
  chatId : List Char
  chatKind : ChatKind
  senderId : List Char
  messageId : List Char
  text : List Char
  replyTo : Option (List Char)
  attachments : Option (List Attachment)
  timestamp : Nat
deriving DecidableEq, Repr

/-- Mention stripping (part_001 lines 131-134): for each mention, JS
`text = text.replace(mention.key, '').trim()` — remove the first
occurrence of the key, then trim both ends. -/
def stripMentions (text : List Char) (mentions : List Mention) : List Char :=
  mentions.foldl (fun t m => trimStr (removeFirst t m.key)) text

/-- JS `a || b` on two optional strings (empty string is falsy). -/
def jsOrStr (a b : Option (List Char)) : Option (List Char) :=
  match a with
  | some s => if s = [] then b else some s
  | none => b

/-- A JS truthiness filter on an optional string: empty string acts like
`undefined` in the `if (eventId)` guards. -/
def truthyId : Option (List Char) → Option (List Char)
  | some [] => none
  | o => o

/-- `data.message || data.event?.message`. -/
def extractMessage (d : FeishuEventData) : Option FeishuMessage :=
  match d.message with
  | some m => some m
  | none => d.event_message

/-- `data.sender || data.event?.sender`. -/
def extractSender (d : FeishuEventData) : Option FeishuSender :=
  match d.sender with
  | some s => some s
  | none => d.event_sender

/-- `message.mentions && message.mentions.length > 0`. -/
def hasMentionB (m : FeishuMessage) : Bool :=
  match m.mentions with
  | some l => decide (l ≠ [])
  | none => false

/-- Content parsing by declared message kind (part_001 lines 123-152):
text extraction with mention stripping, attachment recording with a
placeholder label, or a generic bracketed placeholder. -/
def parseContent (msg : FeishuMessage) : List Char × List Attachment :=
  if msg.message_type = ("text").toList then
    let raw := match msg.content.textField with
      | some t => t
      | none => []
    let text := match msg.mentions with
      | some l => stripMentions raw l
      | none => raw
    (text, [])
  else if msg.message_type = ("image").toList then
    (("[Image]").toList, [⟨("image").toList, msg.content.image_key⟩])
  else if msg.message_type = ("file").toList then
    let fn := msg.content.file_name
    (("[File: ").toList ++ (match fn with
      | some f => f
      | none => ("undefined").toList) ++ ("]").toList,
     [⟨("file").toList, fn⟩])
  else
    (("[").toList ++ msg.message_type ++ ("]").toList, [])

/-- The admission-plus-normalization logic of `handleMessageReceive` after
deduplication: `none` means the event is silently dropped. -/
def normalizeEvent (cfg : FeishuChannelCfg) (d : FeishuEventData) :
    Option InboundMessageContext :=
  match extractMessage d, extractSender d with
  | some msg, some snd =>
    if snd.sender_type = ("bot").toList then none
    else
      let chatKind := if msg.chat_type = ("p2p").toList then ChatKind.direct
        else ChatKind.group
      if chatKind = ChatKind.group ∧ cfg.requireMention ≠ some false
          ∧ hasMentionB msg = false then none
      else
        let pc := parseContent msg
        if trimStr pc.1 = [] ∧ pc.2 = [] then none
        else some
          { chatId := msg.chat_id
            chatKind := chatKind
            senderId := snd.open_id
            messageId := msg.message_id
            text := pc.1
            replyTo := msg.parent_id
            attachments := if pc.2 ≠ [] then some pc.2 else none
            timestamp := msg.create_time }
  | _, _ => none

/-- The full handler body: deduplication by event id (part_001 lines
85-95) followed by normalization.  Returns the updated processed-events
set and the admitted message, if any. -/
def handleMessageReceive (processed : List (List Char)) (cfg : FeishuChannelCfg)
    (d : FeishuEventData) : List (List Char) × Option InboundMessageContext :=
  match truthyId (jsOrStr d.event_id d.header_event_id) with
  | some id =>
    if processed.contains id then (processed, none)
    else (id :: processed, normalizeEvent cfg d)
  | none => (processed, normalizeEvent cfg d)

/-!
## Gateway request dispatch — the two `OpenClawService` variants

`src/src/services/openclaw.ts` `sendRequest` (lines 109-138): when the
service is not connected (or the socket object is absent) the message is
pushed onto `messageQueue` for later delivery and the promise stays
pending; otherwise the request is registered in `pendingRequests` and
sent (a throwing send unregisters it and rejects).

`src/unnamed/part_003` `chatViaWs` (lines 180-221): throws
`WebSocket not connected or handshake not complete` unless both
`isConnected` and `isHandshakeComplete` hold; otherwise registers the
pending request and sends.  `handleChallenge` (lines 114-149) registers
and sends the `connect` handshake request without consulting either flag.
-/

/-- State of the `OpenClawService` in src/src/services/openclaw.ts that
`sendRequest` reads and writes. -/
structure OcSvcState where
  isConnected : Bool
  wsPresent : Bool
  pending : List (List Char)
  queueLen : Nat
deriving DecidableEq, Repr

/-- What one `sendRequest` call did. -/
inductive SendDisposition
  | queuedForLater
  | registered (id : List Char)
  | rejectedSendError
deriving DecidableEq, Repr

/-- `OpenClawService.sendRequest` of src/src/services/openclaw.ts:
`if (!this.isConnected || !this.ws) { this.messageQueue.push(...); return; }`
then register, send (`sendOk` models whether `ws.send` throws). -/
def sendRequest (st : OcSvcState) (msgId : List Char) (sendOk : Bool) :
    OcSvcState × SendDisposition :=
  if !st.isConnected || !st.wsPresent then
    ({ st with queueLen := st.queueLen + 1 }, SendDisposition.queuedForLater)
  else if sendOk then
    ({ st with pending := msgId :: st.pending }, SendDisposition.registered msgId)
  else
    (st, SendDisposition.rejectedSendError)

/-- The error text thrown by `chatViaWs` when the session is not ready. -/
def notReadyError : List Char :=
  ("WebSocket not connected or handshake not complete").toList

/-- `OpenClawService.chatViaWs` of src/unnamed/part_003 (readiness gate and
registration): `if (!this.isConnected || !this.isHandshakeComplete) throw`,
else register the pending id and send. -/
def chatViaWs (isConnected isHandshakeComplete : Bool)
    (pending : List (List Char)) (id : List Char) :
    Except (List Char) (List (List Char)) :=
  if !isConnected || !isHandshakeComplete then Except.error notReadyError
  else Except.ok (id :: pending)

/-- `OpenClawService.handleChallenge` of src/unnamed/part_003: registers
the `connect` request and sends it.  The function reads neither
`isConnected` nor `isHandshakeComplete` — the handshake request bypasses
the readiness gate. -/
def handleChallenge (pending : List (List Char)) (connectId : List Char) :
    List (List Char) :=
  connectId :: pending

/-!
## Request correlation lifecycle — one pending id (C2)

Projection of `pendingRequests` and the per-request timeout of
src/unnamed/part_003 `chatViaWs` (lines 197-221) and `handleMessage`
(lines 80-103) onto a single request id.  `inTable` is membership of the
id in `pendingRequests`; `timerArmed` is whether the `setTimeout` timer is
still pending (every settle path calls `clearTimeout` first, and a fired
timer cannot fire again).  Events are processed one at a time by the JS
event loop.
-/

/-- The events that can touch one pending request. -/
inductive ReqEvent
  | responseOk
  | responseErr
  | timerFire
deriving DecidableEq, Repr

/-- How the caller promise for the request was settled. -/
inductive ReqOutcome
  | resolved
  | rejectedError
  | rejectedTimeout
deriving DecidableEq, Repr

/-- Lifecycle state of one pending request. -/
structure ReqState where
  inTable : Bool
  timerArmed : Bool
deriving DecidableEq, Repr

/-- One event against one pending request, returning the settlement it
fires, if any.  A response settles only when the id is still in the table
(`handleMessage` looks the id up first) and clears the timer; the timer,
when it fires, deletes the id and rejects with the timeout error. -/
def stepReq (s : ReqState) : ReqEvent → ReqState × Option ReqOutcome
  | ReqEvent.responseOk =>
    if s.inTable then (⟨false, false⟩, some ReqOutcome.resolved) else (s, none)
  | ReqEvent.responseErr =>
    if s.inTable then (⟨false, false⟩, some ReqOutcome.rejectedError) else (s, none)
  | ReqEvent.timerFire =>
    if s.timerArmed then (⟨false, false⟩, some ReqOutcome.rejectedTimeout)
    else (s, none)

/-- Process a list of events, collecting the settlements fired. -/
def runReq (s : ReqState) : List ReqEvent → ReqState × List ReqOutcome
  | [] => (s, [])
  | e :: es =>
    let p := stepReq s e
    let r := runReq p.1 es
    (r.1, (match p.2 with | some o => [o] | none => []) ++ r.2)

/-- The state of a freshly registered request: in the table, timer armed. -/
def freshReq : ReqState := ⟨true, true⟩

/-!
## Reconnect policy (C3)

src/unnamed/part_003 lines 158-176 (`attemptReconnect`), 38-43 (the
`open` handler) and 49-54 (the `close` handler); plus the delay formula of
the alternate service, src/src/services/openclaw.ts lines 82-98.
-/

/-- Connection state of the part_003 `OpenClawService` relevant to
reconnection. -/
structure OcConn where
  isConnected : Bool
  isHandshakeComplete : Bool
  reconnectAttempts : Nat
  timerPending : Bool
deriving DecidableEq, Repr

/-- `maxReconnectAttempts` (both service variants). -/
def maxReconnectAttempts : Nat := 10

/-- `reconnectDelay` of src/unnamed/part_003 (3000 ms). -/
def reconnectDelayP3 : Nat := 3000

/-- `reconnectDelay` of src/src/services/openclaw.ts (1000 ms). -/
def reconnectDelayOc : Nat := 1000

/-- What `attemptReconnect` did. -/
inductive ReconnectAction
  | skippedTimerPending
  | fatalMaxAttempts
  | scheduled (delayMs : Nat)
deriving DecidableEq, Repr

/-- `OpenClawService.attemptReconnect` of src/unnamed/part_003: return if
a timer is already pending; log a fatal error and stop once
`reconnectAttempts >= maxReconnectAttempts`; otherwise increment the
counter and schedule after `reconnectDelay * Math.min(attempts, 5)`. -/
def attemptReconnectP3 (st : OcConn) : OcConn × ReconnectAction :=
  if st.timerPending then (st, ReconnectAction.skippedTimerPending)
  else if st.reconnectAttempts ≥ maxReconnectAttempts then
    (st, ReconnectAction.fatalMaxAttempts)
  else
    let a := st.reconnectAttempts + 1
    ({ st with reconnectAttempts := a, timerPending := true },
     ReconnectAction.scheduled (reconnectDelayP3 * Nat.min a 5))

/-- The `close` handler of src/unnamed/part_003 (lines 49-54): clear the
connected and handshake flags, then attempt a reconnect. -/
def onCloseP3 (st : OcConn) : OcConn × ReconnectAction :=
  attemptReconnectP3 { st with isConnected := false, isHandshakeComplete := false }

/-- The `open` handler of src/unnamed/part_003 (lines 38-43):
`this.isConnected = true; this.reconnectAttempts = 0;`.  The handshake
flag is untouched — it is still false at this point. -/
def onOpenP3 (st : OcConn) : OcConn :=
  { st with isConnected := true, reconnectAttempts := 0 }

/-- The handshake-completion step of src/unnamed/part_003 `handleMessage`
(lines 88-91): sets `isHandshakeComplete`, leaves `reconnectAttempts`
alone. -/
def onHandshakeOkP3 (st : OcConn) : OcConn :=
  { st with isHandshakeComplete := true }

/-- The delay scheduled for the n-th attempt by
src/src/services/openclaw.ts line 89:
`this.reconnectDelay * Math.pow(2, this.reconnectAttempts - 1)`. -/
def reconnectDelayOfOc (attempt : Nat) : Nat :=
  reconnectDelayOc * 2 ^ (attempt - 1)

/-!
## Streaming reply aggregator — `startAccount` deliver closure
(src/src/channel/channel.ts lines 402-612)

One conversation turn: a thinking placeholder is sent first (a blue
streaming card when `streamingEnabled`, else a plain text message); each
backend partial payload invokes `deliver`; after dispatch completes, a
final card update (green, non-streaming header) marks the card done.

Environment inputs: `updateOk n` tells whether the n-th
`updateMessageCard` PATCH call succeeds (counted from 0), and `chunker`
stands for the external `core.channel.text.chunkMarkdownText`, consulted
only when a payload text exceeds `textLimit`.  Payloads here carry text
only (the media loop at the top of `deliver` is a no-op for payloads
without `mediaUrls`, which is the case the claims exercise).
-/

/-- Outbound platform calls made during one turn. -/
inductive FsAction
  | createCard (content : List Char) (streaming : Bool)
  | createText (content : List Char)
  | editCard (content : List Char) (streaming : Bool)
  | editCardFailed (content : List Char)
  | deleteMsg
deriving DecidableEq, Repr

/-- The mutable locals of the deliver closure. -/
structure DeliverState where
  cardActive : Bool
  accumulated : List Char
  firstReply : Bool
  updateAttempts : Nat
deriving DecidableEq, Repr

/-- The visible divider inserted between accumulated partial payloads. -/
def streamSep : List Char := ("\n\n---\n\n").toList

/-- Content of the thinking placeholder. -/
def thinkingText : List Char := ("正在思考...").toList

/-- The plain-text tail of `deliver`: optionally delete the thinking
message (non-streaming first reply only), then chunk the payload text and
send each non-empty chunk as a text message. -/
def deliverPlainText (useStreaming : Bool) (thinkingMsg : Bool) (textLimit : Nat)
    (chunker : List Char → Nat → List (List Char))
    (st : DeliverState) (replyText : List Char) : DeliverState × List FsAction :=
  let delPair :=
    if st.firstReply ∧ thinkingMsg ∧ ¬useStreaming then
      ({ st with firstReply := false }, [FsAction.deleteMsg])
    else (st, ([] : List FsAction))
  let chunks :=
    if replyText.length ≤ textLimit then [replyText] else chunker replyText textLimit
  let chunks := if chunks ≠ [] then chunks else [replyText]
  (delPair.1, delPair.2 ++ (chunks.filter (fun c => c ≠ [])).map FsAction.createText)

/-- One `deliver` invocation for a text payload (channel.ts lines
502-589, with the media loop a no-op): in streaming mode with a live
card, append to `accumulatedText` (with the divider) and PATCH the card;
on PATCH failure clear `cardMessageId` and fall through to the plain-text
tail. -/
def deliverStep (useStreaming : Bool) (thinkingMsg : Bool) (updateOk : Nat → Bool)
    (textLimit : Nat) (chunker : List Char → Nat → List (List Char))
    (st : DeliverState) (replyText : List Char) : DeliverState × List FsAction :=
  if replyText = [] then (st, [])
  else if useStreaming ∧ st.cardActive then
    let acc' := if st.accumulated ≠ [] then st.accumulated ++ streamSep ++ replyText
      else replyText
    if updateOk st.updateAttempts then
      ({ st with accumulated := acc', updateAttempts := st.updateAttempts + 1 },
       [FsAction.editCard acc' true])
    else
      let st' : DeliverState :=
        { st with accumulated := acc', updateAttempts := st.updateAttempts + 1,
                  cardActive := false }
      let p := deliverPlainText useStreaming thinkingMsg textLimit chunker st' replyText
      (p.1, FsAction.editCardFailed acc' :: p.2)
  else
    deliverPlainText useStreaming thinkingMsg textLimit chunker st replyText

/-- Fold `deliver` over the partial payloads of one turn. -/
def deliverAll (useStreaming : Bool) (thinkingMsg : Bool) (updateOk : Nat → Bool)
    (textLimit : Nat) (chunker : List Char → Nat → List (List Char))
    (st : DeliverState) : List (List Char) → DeliverState × List FsAction
  | [] => (st, [])
  | p :: ps =>
    let r := deliverStep useStreaming thinkingMsg updateOk textLimit chunker st p
    let rest := deliverAll useStreaming thinkingMsg updateOk textLimit chunker r.1 ps
    (rest.1, r.2 ++ rest.2)

/-- One whole turn (channel.ts lines 405-612): send the thinking
placeholder, run `deliver` for each partial payload, then — in streaming
mode with a live card holding accumulated text — PATCH the card one last
time with the completed (non-streaming) header. -/
def runStreamTurn (useStreaming : Bool) (thinkingCreateOk : Bool)
    (updateOk : Nat → Bool) (textLimit : Nat)
    (chunker : List Char → Nat → List (List Char))
    (payloads : List (List Char)) : List FsAction :=
  let thinkingActs : List FsAction :=
    if thinkingCreateOk then
      if useStreaming then [FsAction.createCard thinkingText true]
      else [FsAction.createText thinkingText]
    else []
  let st0 : DeliverState :=
    { cardActive := useStreaming ∧ thinkingCreateOk
      accumulated := []
      firstReply := true
      updateAttempts := 0 }
  let r := deliverAll useStreaming thinkingCreateOk updateOk textLimit chunker st0 payloads
  let finalActs : List FsAction :=
    if useStreaming ∧ r.1.cardActive ∧ r.1.accumulated ≠ [] then
      if updateOk r.1.updateAttempts then [FsAction.editCard r.1.accumulated false]
      else [FsAction.editCardFailed r.1.accumulated]
    else []
  thinkingActs ++ r.2 ++ finalActs

/-- A stand-in chunker for concrete evaluation; never consulted in the
scenarios below because all payload texts fit within the limit. -/
def idChunker : List Char → Nat → List (List Char) := fun t _ => [t]

/-!
## Helper lemmas
-/

theorem dropWhile_idem (p : Char → Bool) (l : List Char) :
    (l.dropWhile p).dropWhile p = l.dropWhile p := by
  induction l with
  | nil => rfl
  | cons a l ih =>
    by_cases h : p a
    · simp [List.dropWhile_cons, h, ih]
    · simp [List.dropWhile_cons, h]

theorem dropWhile_eq_self_of_prefix (p : Char → Bool) {l₁ l₂ : List Char}
    (hp : l₁ <+: l₂) (h : l₂.dropWhile p = l₂) : l₁.dropWhile p = l₁ := by
  cases l₁ with
  | nil => rfl
  | cons a t =>
    obtain ⟨rest, hrest⟩ := hp
    have ha : p a = false := by
      by_contra hcon
      have hpa : p a = true := by
        cases hpa : p a
        · exact absurd hpa hcon
        · rfl
      rw [← hrest, List.cons_append] at h
      rw [List.dropWhile_cons_of_pos hpa] at h
      have hlen := congrArg List.length h
      have hle : ((t ++ rest).dropWhile p).length ≤ (t ++ rest).length :=
        (List.dropWhile_suffix p).length_le
      simp only [List.length_cons] at hlen
      omega
    rw [List.dropWhile_cons_of_neg (by simp [ha])]

theorem trimRightStr_prefix (s : List Char) : trimRightStr s <+: s := by
  have h2 : (trimRightStr s).reverse <:+ s.reverse := by
    unfold trimRightStr
    rw [List.reverse_reverse]
    exact List.dropWhile_suffix jsWhitespace
  exact List.reverse_suffix.mp h2

theorem trimRightStr_idem (s : List Char) :
    trimRightStr (trimRightStr s) = trimRightStr s := by
  unfold trimRightStr
  rw [List.reverse_reverse, dropWhile_idem]

theorem trimLeftStr_idem (s : List Char) :
    trimLeftStr (trimLeftStr s) = trimLeftStr s := by
  unfold trimLeftStr
  exact dropWhile_idem jsWhitespace s

theorem trimStr_idem (s : List Char) : trimStr (trimStr s) = trimStr s := by
  unfold trimStr
  have hL : trimLeftStr (trimLeftStr s) = trimLeftStr s := trimLeftStr_idem s
  have hfix : (trimLeftStr s).dropWhile jsWhitespace = trimLeftStr s := hL
  have hpre : trimRightStr (trimLeftStr s) <+: trimLeftStr s :=
    trimRightStr_prefix (trimLeftStr s)
  have hLR : trimLeftStr (trimRightStr (trimLeftStr s)) = trimRightStr (trimLeftStr s) :=
    dropWhile_eq_self_of_prefix jsWhitespace hpre hfix
  rw [hLR, trimRightStr_idem]

theorem lastIndexOfLe_le {s : List Char} {c : Char} {k i : Nat}
    (h : lastIndexOfLe s c k = some i) : i ≤ k := by
  unfold lastIndexOfLe at h
  have hmem := List.mem_of_getLast?_eq_some h
  have := (List.mem_filter.mp hmem).1
  have := List.mem_range.mp this
  omega

theorem failsHalf_none (limit : Nat) : failsHalf limit none = true := rfl

theorem breakPointOf_le (r : List Char) (limit : Nat) :
    breakPointOf r limit ≤ limit := by
  simp only [breakPointOf]
  set bp0 := lastIndexOfLe r '\n' limit with hbp0
  set bp1 := if failsHalf limit bp0 then lastIndexOfLe r ' ' limit else bp0 with hbp1
  have hb : ∀ j, bp1 = some j → j ≤ limit := by
    intro j hj
    rw [hbp1] at hj
    split at hj
    · exact lastIndexOfLe_le hj
    · exact lastIndexOfLe_le (hbp0 ▸ hj)
  by_cases hf : failsHalf limit bp1
  · simp [hf]
  · rw [if_neg hf]
    cases hc : bp1 with
    | none => rw [hc, failsHalf_none] at hf; exact absurd rfl hf
    | some j => rw [Option.getD_some]; exact hb j hc

theorem breakPointOf_pos (r : List Char) {limit : Nat} (hl : 1 ≤ limit) :
    1 ≤ breakPointOf r limit := by
  simp only [breakPointOf]
  set bp0 := lastIndexOfLe r '\n' limit with hbp0
  set bp1 := if failsHalf limit bp0 then lastIndexOfLe r ' ' limit else bp0 with hbp1
  by_cases hf : failsHalf limit bp1
  · simpa [hf] using hl
  · rw [if_neg hf]
    cases hc : bp1 with
    | none => rw [hc, failsHalf_none] at hf; exact absurd rfl hf
    | some j =>
      rw [Option.getD_some]
      rw [hc] at hf
      simp [failsHalf] at hf
      omega

/-- The search step of each loop iteration never crosses the limit and
always advances: with `limit ≥ 1` the chosen break point satisfies
`1 ≤ bp ≤ limit`. -/
theorem breakPointOf_bounds (r : List Char) {limit : Nat} (hl : 1 ≤ limit) :
    1 ≤ breakPointOf r limit ∧ breakPointOf r limit ≤ limit :=
  ⟨breakPointOf_pos r hl, breakPointOf_le r limit⟩

/-- Chunks from `t` reassemble to `t` when interleaved with the
whitespace runs dropped at the break points (and an optional trailing
whitespace run). -/
inductive Reassembles : List Char → List (List Char) → Prop
  | nil : Reassembles [] []
  | cons (c ws rest : List Char) (chunks : List (List Char)) :
      (∀ x ∈ ws, jsWhitespace x = true) →
      Reassembles rest chunks →
      Reassembles (c ++ ws ++ rest) (c :: chunks)

theorem chunkLoopF_length_le {limit : Nat} :
    ∀ (fuel : Nat) (r : List Char), ∀ c ∈ chunkLoopF fuel limit r, c.length ≤ limit := by
  intro fuel
  induction fuel with
  | zero => intro r c hc; simp [chunkLoopF] at hc
  | succ n ih =>
    intro r c hc
    rw [chunkLoopF] at hc
    by_cases hnil : r = []
    · simp [hnil] at hc
    · rw [if_neg hnil] at hc
      by_cases hfit : r.length ≤ limit
      · rw [if_pos hfit] at hc
        simp at hc
        exact hc ▸ hfit
      · rw [if_neg hfit] at hc
        simp only [List.mem_cons] at hc
        rcases hc with hc | hc
        · subst hc
          simp [List.length_take]
          exact Or.inl (breakPointOf_le r limit)
        · exact ih _ c hc

theorem chunkLoopF_ne_nil {limit : Nat} (hl : 1 ≤ limit) :
    ∀ (fuel : Nat) (r : List Char), ∀ c ∈ chunkLoopF fuel limit r, c ≠ [] := by
  intro fuel
  induction fuel with
  | zero => intro r c hc; simp [chunkLoopF] at hc
  | succ n ih =>
    intro r c hc
    rw [chunkLoopF] at hc
    by_cases hnil : r = []
    · simp [hnil] at hc
    · rw [if_neg hnil] at hc
      by_cases hfit : r.length ≤ limit
      · rw [if_pos hfit] at hc
        simp at hc
        exact hc ▸ hnil
      · rw [if_neg hfit] at hc
        simp only [List.mem_cons] at hc
        rcases hc with hc | hc
        · subst hc
          have hbp := breakPointOf_pos r hl
          intro hcon
          have := congrArg List.length hcon
          simp [List.length_take] at this
          rcases this with h | h
          · omega
          · exact hnil h
        · exact ih _ c hc

theorem chunkLoopF_reassembles {limit : Nat} (hl : 1 ≤ limit) :
    ∀ (fuel : Nat) (r : List Char), r.length ≤ fuel →
      Reassembles r (chunkLoopF fuel limit r) := by
  intro fuel
  induction fuel with
  | zero =>
    intro r hr
    have : r = [] := List.length_eq_zero.mp (Nat.le_zero.mp hr)
    subst this
    exact Reassembles.nil
  | succ n ih =>
    intro r hr
    rw [chunkLoopF]
    by_cases hnil : r = []
    · simp [hnil]
      exact Reassembles.nil
    · rw [if_neg hnil]
      by_cases hfit : r.length ≤ limit
      · rw [if_pos hfit]
        have : Reassembles (r ++ [] ++ []) [r] :=
          Reassembles.cons r [] [] [] (by intro x hx; simp at hx) Reassembles.nil
        simpa using this
      · rw [if_neg hfit]
        set bp := breakPointOf r limit with hbp
        have hbp1 : 1 ≤ bp := breakPointOf_pos r hl
        set dropped := (r.drop bp).takeWhile jsWhitespace with hdropped
        set rest := trimLeftStr (r.drop bp) with hrest
        have hsplit : r = r.take bp ++ dropped ++ rest := by
          rw [hdropped, hrest]
          unfold trimLeftStr
          rw [List.append_assoc, List.takeWhile_append_dropWhile,
            List.take_append_drop]
        have hws : ∀ x ∈ dropped, jsWhitespace x = true := by
          intro x hx
          exact List.mem_takeWhile_imp (hdropped ▸ hx)
        have hlen : rest.length ≤ n := by
          have h1 : rest.length ≤ (r.drop bp).length := by
            rw [hrest]
            exact (List.dropWhile_suffix jsWhitespace).length_le
          have h2 : (r.drop bp).length = r.length - bp := List.length_drop bp r
          omega
        have hrec := ih rest hlen
        have := Reassembles.cons (r.take bp) dropped rest
          (chunkLoopF n limit rest) hws hrec
        rw [← hsplit] at this
        exact this

/-- Every chunk of `chunkText` fits within the limit, and the chunks
reassemble to the input text with only whitespace dropped at break
points. -/
theorem chunkText_spec (t : List Char) {limit : Nat} (hl : 1 ≤ limit) :
    (∀ c ∈ chunkText t limit, c.length ≤ limit) ∧
      Reassembles t (chunkText t limit) := by
  unfold chunkText
  by_cases hfit : t.length ≤ limit
  · rw [if_pos hfit]
    refine ⟨by intro c hc; simp at hc; exact hc ▸ hfit, ?_⟩
    have : Reassembles (t ++ [] ++ []) [t] :=
      Reassembles.cons t [] [] [] (by intro x hx; simp at hx) Reassembles.nil
    simpa using this
  · rw [if_neg hfit]
    exact ⟨fun c hc => chunkLoopF_length_le t.length t c hc,
      chunkLoopF_reassembles hl t.length t (Nat.le_refl _)⟩

/-- The dead request state: id removed from the table, timer cleared. -/
def deadReq : ReqState := ⟨false, false⟩

theorem stepReq_dead (e : ReqEvent) : stepReq deadReq e = (deadReq, none) := by
  cases e <;> rfl

theorem runReq_dead (evs : List ReqEvent) : runReq deadReq evs = (deadReq, []) := by
  induction evs with
  | nil => rfl
  | cons e es ih => simp [runReq, stepReq_dead, ih]

theorem stepReq_fresh_settles (e : ReqEvent) :
    (stepReq freshReq e).1 = deadReq ∧ (stepReq freshReq e).2.isSome := by
  cases e <;> simp [stepReq, freshReq, deadReq]

/-- Along any event sequence, a freshly registered request fires at most
one settlement. -/
theorem runReq_fresh_at_most_once (evs : List ReqEvent) :
    (runReq freshReq evs).2.length ≤ 1 := by
  cases evs with
  | nil => simp [runReq]
  | cons e es =>
    have hstep := stepReq_fresh_settles e
    simp only [runReq]
    rw [hstep.1, runReq_dead]
    cases h2 : (stepReq freshReq e).2 with
    | none => rw [h2] at hstep; simp at hstep
    | some o => simp [h2]

/-- A turn whose card is no longer live performs no further card edit,
successful or attempted: the plain-text tail only deletes the thinking
message and sends text chunks, and it keeps the card inactive. -/
theorem deliverPlainText_no_edit (useStreaming thinkingMsg : Bool) (textLimit : Nat)
    (chunker : List Char → Nat → List (List Char)) (st : DeliverState)
    (replyText : List Char) :
    (deliverPlainText useStreaming thinkingMsg textLimit chunker st replyText).1.cardActive
        = st.cardActive ∧
    ∀ a ∈ (deliverPlainText useStreaming thinkingMsg textLimit chunker st replyText).2,
      (∀ s b, a ≠ FsAction.editCard s b) ∧ (∀ s, a ≠ FsAction.editCardFailed s) := by
  simp only [deliverPlainText]
  split
  · refine ⟨rfl, ?_⟩
    intro a ha
    simp only [List.mem_append, List.mem_singleton, List.mem_map] at ha
    rcases ha with ha | ⟨c, _, hc⟩
    · subst ha
      exact ⟨fun s b => by simp, fun s => by simp⟩
    · subst hc
      exact ⟨fun s b => by simp, fun s => by simp⟩
  · refine ⟨rfl, ?_⟩
    intro a ha
    simp only [List.nil_append, List.mem_map] at ha
    rcases ha with ⟨c, _, hc⟩
    subst hc
    exact ⟨fun s b => by simp, fun s => by simp⟩

theorem deliverStep_inactive (useStreaming thinkingMsg : Bool)
    (updateOk : Nat → Bool) (textLimit : Nat)
    (chunker : List Char → Nat → List (List Char)) (st : DeliverState)
    (replyText : List Char) (hc : st.cardActive = false) :
    (deliverStep useStreaming thinkingMsg updateOk textLimit chunker st replyText).1.cardActive
        = false ∧
    ∀ a ∈ (deliverStep useStreaming thinkingMsg updateOk textLimit chunker st replyText).2,
      (∀ s b, a ≠ FsAction.editCard s b) ∧ (∀ s, a ≠ FsAction.editCardFailed s) := by
  unfold deliverStep
  by_cases hempty : replyText = []
  · rw [if_pos hempty]
    exact ⟨hc, by intro a ha; simp at ha⟩
  · rw [if_neg hempty]
    have hcond : ¬(useStreaming = true ∧ st.cardActive = true) := by
      intro h
      rw [hc] at h
      exact absurd h.2 (by simp)
    rw [if_neg hcond]
    have h := deliverPlainText_no_edit useStreaming thinkingMsg textLimit chunker st replyText
    exact ⟨h.1.trans hc, h.2⟩

/-- Permanent fallback: once the card is inactive, the rest of the turn
performs no card edit (and the card never becomes active again). -/
theorem deliverAll_inactive (useStreaming thinkingMsg : Bool)
    (updateOk : Nat → Bool) (textLimit : Nat)
    (chunker : List Char → Nat → List (List Char)) :
    ∀ (payloads : List (List Char)) (st : DeliverState), st.cardActive = false →
    (deliverAll useStreaming thinkingMsg updateOk textLimit chunker st payloads).1.cardActive
        = false ∧
    ∀ a ∈ (deliverAll useStreaming thinkingMsg updateOk textLimit chunker st payloads).2,
      (∀ s b, a ≠ FsAction.editCard s b) ∧ (∀ s, a ≠ FsAction.editCardFailed s) := by
  intro payloads
  induction payloads with
  | nil =>
    intro st hc
    exact ⟨hc, by intro a ha; simp [deliverAll] at ha⟩
  | cons p ps ih =>
    intro st hc
    have hstep := deliverStep_inactive useStreaming thinkingMsg updateOk textLimit
      chunker st p hc
    have hrest := ih _ hstep.1
    simp only [deliverAll]
    refine ⟨hrest.1, ?_⟩
    intro a ha
    rcases List.mem_append.mp ha with ha | ha
    · exact hstep.2 a ha
    · exact hrest.2 a ha

/-!
## Concrete scenario inputs
-/

/-- Mention key used in the C7 scenario. -/
def c7Key : List Char := ("<at>bot</at>").toList

/-- A non-bot sender. -/
def c7Sender : FeishuSender := ⟨("user").toList, ("ou-alice").toList⟩

/-- The C7 scenario message: a group text message mentioning the bot. -/
def c7Msg : FeishuMessage :=
  { chat_type := ("group").toList
    message_type := ("text").toList
    content := ⟨some (("hello <at>bot</at> world").toList), none, none⟩
    mentions := some [⟨c7Key⟩]
    chat_id := ("oc-chat").toList
    message_id := ("om-1").toList
    parent_id := none
    create_time := 1700000000 }

/-- The C7 scenario event envelope (schema 2.0 shape). -/
def c7Event : FeishuEventData :=
  ⟨some (("evt-7").toList), none, some c7Msg, some c7Sender, none, none⟩

/-- Mention policy enabled. -/
def c7Cfg : FeishuChannelCfg := ⟨some true⟩

/-- The C5 scenario event: same message under a distinct event id. -/
def c5Event : FeishuEventData :=
  ⟨some (("evt-5").toList), none, some c7Msg, some c7Sender, none, none⟩

/-- The C6 scenario message: a group text message with no mentions. -/
def c6Msg : FeishuMessage :=
  { chat_type := ("group").toList
    message_type := ("text").toList
    content := ⟨some (("hi there").toList), none, none⟩
    mentions := none
    chat_id := ("oc-chat").toList
    message_id := ("om-6").toList
    parent_id := none
    create_time := 1700000000 }

/-- The C6 scenario event envelope. -/
def c6Event : FeishuEventData :=
  ⟨some (("evt-6").toList), none, some c6Msg, some c7Sender, none, none⟩

/-- A group text message whose only mention is of ANOTHER user — it
carries no mention of the bot, yet its mentions list is non-empty. -/
def c6CexMsg : FeishuMessage :=
  { chat_type := ("group").toList
    message_type := ("text").toList
    content := ⟨some (("hello <at>other</at> everyone").toList), none, none⟩
    mentions := some [⟨("<at>other</at>").toList⟩]
    chat_id := ("oc-chat").toList
    message_id := ("om-6x").toList
    parent_id := none
    create_time := 1700000000 }

/-- Event envelope carrying `c6CexMsg`. -/
def c6CexEvent : FeishuEventData :=
  ⟨some (("evt-6x").toList), none, some c6CexMsg, some c7Sender, none, none⟩

/-- The three partial payloads of the streaming scenarios. -/
def strA : List Char := ("A").toList

/-- Second partial payload. -/
def strB : List Char := ("B").toList

/-- Third partial payload. -/
def strC : List Char := ("C").toList

/-- Payload sequence for the streaming scenarios. -/
def c8Payloads : List (List Char) := [strA, strB, strC]

/-- Environment in which every card PATCH succeeds. -/
def allUpdatesOk : Nat → Bool := fun _ => true

/-- The C8 scenario turn: streaming on, thinking card sent, all card
updates succeed. -/
def c8Trace : List FsAction :=
  runStreamTurn true true allUpdatesOk 4000 idChunker c8Payloads

/-- Environment in which the first card PATCH succeeds and every later
one fails (the failure lands on the second partial payload). -/
def failSecondUpdate : Nat → Bool := fun n => n == 0

/-- The C9 scenario turn: card update fails on the second partial. -/
def c9Trace : List FsAction :=
  runStreamTurn true true failSecondUpdate 4000 idChunker c8Payloads

/-- Recognises artifact creations. -/
def isCreateCardAct : FsAction → Bool
  | FsAction.createCard _ _ => true
  | _ => false

/-- Recognises successful in-place card edits. -/
def isEditCardAct : FsAction → Bool
  | FsAction.editCard _ _ => true
  | _ => false

/-- Recognises plain text sends. -/
def isCreateTextAct : FsAction → Bool
  | FsAction.createText _ => true
  | _ => false

/-!
## Claims
-/

/-- C1 counterexample: `OpenClawService.sendRequest` of
src/src/services/openclaw.ts, called while disconnected, does NOT fail
with a NotConnected-style error — it silently queues the request
(`messageQueue` grows by one) for later delivery, refuting the claim that
no request operation implicitly queues. -/
theorem c1_counterexample :
    sendRequest ⟨false, true, [], 0⟩ (("r1").toList) true
      = (⟨false, true, [], 1⟩, SendDisposition.queuedForLater) ∧
    (sendRequest ⟨false, true, [], 0⟩ (("r1").toList) true).2
      ≠ SendDisposition.rejectedSendError := by
  exact ⟨by decide, by decide⟩

/-- C1 amended: `chatViaWs` of src/unnamed/part_003 fails with the
NotConnected-style error whenever the session is not connected or the
handshake is incomplete, registering nothing; the `connect` handshake
request (`handleChallenge`) registers and sends without any readiness
check; but the alternate `sendRequest` of src/src/services/openclaw.ts
instead silently queues any request made while disconnected. -/
theorem c1_theorem :
    (∀ (c h : Bool) (p : List (List Char)) (id : List Char),
      c = false ∨ h = false →
      chatViaWs c h p id = Except.error notReadyError) ∧
    (∀ (st : OcSvcState) (id : List Char) (ok : Bool),
      st.isConnected = false →
      sendRequest st id ok
        = ({ st with queueLen := st.queueLen + 1 }, SendDisposition.queuedForLater)) ∧
    (∀ (p : List (List Char)) (id : List Char), handleChallenge p id = id :: p) := by
  refine ⟨?_, ?_, fun p id => rfl⟩
  · intro c h p id hch
    unfold chatViaWs
    rcases hch with hch | hch <;> subst hch <;> simp
  · intro st id ok hst
    unfold sendRequest
    rw [hst]
    simp

/-- C1 witness: the amended statement at concrete inputs. -/
theorem c1_witness :
    chatViaWs false false [] (("w1").toList) = Except.error notReadyError ∧
    sendRequest ⟨false, true, [], 0⟩ (("w2").toList) true
      = (⟨false, true, [], 1⟩, SendDisposition.queuedForLater) ∧
    handleChallenge [] (("w3").toList) = [("w3").toList] := by
  have h := c1_theorem
  exact ⟨h.1 false false [] (("w1").toList) (Or.inl rfl),
    h.2.1 ⟨false, true, [], 0⟩ (("w2").toList) true rfl,
    h.2.2 [] (("w3").toList)⟩

/-- C2: for one pending request id (src/unnamed/part_003 `chatViaWs` and
`handleMessage`), any event sequence fires at most one settlement; a
request whose first event is the timeout fires exactly one `Timeout`
rejection and is out of the table (and timer) afterwards; and any
response reaching a settled (dead) request has no effect. -/
theorem c2_theorem :
    (∀ evs : List ReqEvent, (runReq freshReq evs).2.length ≤ 1) ∧
    (∀ evs : List ReqEvent,
      runReq freshReq (ReqEvent.timerFire :: evs)
        = (deadReq, [ReqOutcome.rejectedTimeout])) ∧
    (∀ e : ReqEvent, stepReq deadReq e = (deadReq, none)) := by
  refine ⟨runReq_fresh_at_most_once, ?_, stepReq_dead⟩
  intro evs
  have h1 : stepReq freshReq ReqEvent.timerFire
      = (deadReq, some ReqOutcome.rejectedTimeout) := rfl
  simp only [runReq, h1, runReq_dead, List.append_nil]

/-- C3 counterexample: the part_003 `open` handler resets the attempt
counter to zero with the handshake still incomplete (so the reset is not
tied to a successful handshake); and the alternate
src/src/services/openclaw.ts schedules the 3rd reconnect after
`1000 * 2 ^ 2 = 4000` ms, not `min(3, 5) * baseDelay = 3000` ms. -/
theorem c3_counterexample :
    (onOpenP3 ⟨false, false, 3, false⟩).reconnectAttempts = 0 ∧
    (onOpenP3 ⟨false, false, 3, false⟩).isHandshakeComplete = false ∧
    reconnectDelayOfOc 3 = 4000 ∧
    reconnectDelayOfOc 3 ≠ reconnectDelayOc * Nat.min 3 5 := by
  exact ⟨rfl, rfl, by decide, by decide⟩

/-- C3 amended: on unexpected close the part_003 session schedules the
next reconnect after `min(attempt, 5) * 3000` ms, stops with a fatal
error log (and no new timer) once the attempt count reaches
`maxReconnectAttempts = 10`, and resets the attempt counter to zero when
the transport opens — before the handshake completes — rather than on
handshake success; the alternate openclaw.ts service uses
`1000 * 2 ^ (attempt - 1)` ms with no cap factor. -/
theorem c3_theorem :
    (∀ st : OcConn, st.timerPending = false →
      st.reconnectAttempts < maxReconnectAttempts →
      attemptReconnectP3 st
        = ({ st with reconnectAttempts := st.reconnectAttempts + 1, timerPending := true },
           ReconnectAction.scheduled
             (reconnectDelayP3 * Nat.min (st.reconnectAttempts + 1) 5))) ∧
    (∀ st : OcConn, st.timerPending = false →
      maxReconnectAttempts ≤ st.reconnectAttempts →
      attemptReconnectP3 st = (st, ReconnectAction.fatalMaxAttempts)) ∧
    (∀ st : OcConn, (onOpenP3 st).reconnectAttempts = 0 ∧
      (onOpenP3 st).isHandshakeComplete = st.isHandshakeComplete) ∧
    (∀ n : Nat, reconnectDelayOfOc n = reconnectDelayOc * 2 ^ (n - 1)) := by
  refine ⟨?_, ?_, fun st => ⟨rfl, rfl⟩, fun n => rfl⟩
  · intro st h1 h2
    unfold attemptReconnectP3
    rw [if_neg (by simp [h1]), if_neg (by omega)]
  · intro st h1 h2
    unfold attemptReconnectP3
    rw [if_neg (by simp [h1]), if_pos h2]

/-- C3 witness: the amended statement at concrete states,
`3000 * min 3 5 = 9000` for the 3rd attempt and the fatal stop at 10. -/
theorem c3_witness :
    attemptReconnectP3 ⟨false, false, 2, false⟩
      = (⟨false, false, 3, true⟩, ReconnectAction.scheduled 9000) ∧
    attemptReconnectP3 ⟨false, false, 10, false⟩
      = (⟨false, false, 10, false⟩, ReconnectAction.fatalMaxAttempts) := by
  have h := c3_theorem
  exact ⟨h.1 ⟨false, false, 2, false⟩ rfl (by decide),
    h.2.1 ⟨false, false, 10, false⟩ rfl (by decide)⟩

/-- C4: for every text and every limit ≥ 1, each chunk emitted by
`chunkText` has length at most the limit, and the chunks reassemble to
the input text with only whitespace dropped at the break points (the
function is pure, so the same input always yields the same chunks). -/
theorem c4_theorem (t : List Char) (limit : Nat) (hl : 1 ≤ limit) :
    (∀ c ∈ chunkText t limit, c.length ≤ limit) ∧
      Reassembles t (chunkText t limit) :=
  chunkText_spec t hl

/-- C4 witness: the statement at a concrete text and limit. -/
theorem c4_witness :
    (∀ c ∈ chunkText (("hello world this is a test").toList) 8, c.length ≤ 8) ∧
      Reassembles (("hello world this is a test").toList)
        (chunkText (("hello world this is a test").toList) 8) :=
  c4_theorem (("hello world this is a test").toList) 8 (by decide)

/-- C5: the handler (part_001 lines 85-95) admits an event with a fresh
id and records the id, drops a second event with the same id before the
window reset, and always passes events with no (or empty) id through to
normalization without recording anything. -/
theorem c5_theorem :
    (∀ (processed : List (List Char)) (cfg : FeishuChannelCfg)
        (d : FeishuEventData) (id : List Char),
      truthyId (jsOrStr d.event_id d.header_event_id) = some id →
      processed.contains id = false →
      (handleMessageReceive processed cfg d).2 = normalizeEvent cfg d ∧
      (handleMessageReceive processed cfg d).1.contains id = true ∧
      handleMessageReceive (handleMessageReceive processed cfg d).1 cfg d
        = ((handleMessageReceive processed cfg d).1, none)) ∧
    (∀ (processed : List (List Char)) (cfg : FeishuChannelCfg)
        (d : FeishuEventData),
      truthyId (jsOrStr d.event_id d.header_event_id) = none →
      handleMessageReceive processed cfg d = (processed, normalizeEvent cfg d)) := by
  constructor
  · intro processed cfg d id hid hfresh
    have hnotmem : id ∉ processed := by simpa using hfresh
    have h1 : handleMessageReceive processed cfg d
        = (id :: processed, normalizeEvent cfg d) := by
      unfold handleMessageReceive
      rw [hid]
      simp [hnotmem]
    rw [h1]
    refine ⟨rfl, by simp, ?_⟩
    unfold handleMessageReceive
    rw [hid]
    simp
  · intro processed cfg d hid
    unfold handleMessageReceive
    rw [hid]

/-- C5 witness: the fresh-then-duplicate behaviour at a concrete event. -/
theorem c5_witness :
    (handleMessageReceive [] c7Cfg c5Event).2 = normalizeEvent c7Cfg c5Event ∧
    (handleMessageReceive [] c7Cfg c5Event).1.contains (("evt-5").toList) = true ∧
    handleMessageReceive (handleMessageReceive [] c7Cfg c5Event).1 c7Cfg c5Event
      = ((handleMessageReceive [] c7Cfg c5Event).1, none) :=
  c5_theorem.1 [] c7Cfg c5Event (("evt-5").toList) (by decide) (by decide)

/-- C6 counterexample: the mention gate never compares any mention
against the bot's identity — it checks only `mentions.length > 0` — so a
group event whose only mention is of another user (no bot mention) is
admitted and dispatched under `requireMention = true`, refuting the
claim that such events are dropped. -/
theorem c6_counterexample :
    (handleMessageReceive [] ⟨some true⟩ c6CexEvent).2
      = some { chatId := ("oc-chat").toList
               chatKind := ChatKind.group
               senderId := ("ou-alice").toList
               messageId := ("om-6x").toList
               text := ("hello  everyone").toList
               replyTo := none
               attachments := none
               timestamp := 1700000000 } ∧
    (handleMessageReceive [] ⟨some true⟩ c6CexEvent).2 ≠ none := by
  exact ⟨by decide, by decide⟩

/-- C6 amended: the gate tests only that the mentions list is non-empty,
not that any mention targets the bot: a group-chat event carrying NO
mentions at all (undefined or empty list), under a mention policy that is
not disabled, yields no InboundMessage; while a group event mentioning
only other users passes the gate and is admitted (the concrete
counterexample event). -/
theorem c6_theorem :
    (∀ (processed : List (List Char)) (cfg : FeishuChannelCfg)
        (d : FeishuEventData) (m : FeishuMessage),
      cfg.requireMention ≠ some false →
      extractMessage d = some m →
      m.chat_type ≠ ("p2p").toList →
      hasMentionB m = false →
      (handleMessageReceive processed cfg d).2 = none) ∧
    (handleMessageReceive [] ⟨some true⟩ c6CexEvent).2 ≠ none := by
  constructor
  · intro processed cfg d m hcfg hm hgrp hnom
    have hnorm : normalizeEvent cfg d = none := by
      simp only [normalizeEvent, hm]
      cases hs : extractSender d with
      | none => rfl
      | some snd =>
        simp only
        by_cases hbot : snd.sender_type = ("bot").toList
        · rw [if_pos hbot]
        · rw [if_neg hbot, if_neg hgrp, if_pos ⟨rfl, hcfg, hnom⟩]
    unfold handleMessageReceive
    cases ht : truthyId (jsOrStr d.event_id d.header_event_id) with
    | none => simpa using hnorm
    | some id =>
      by_cases hcm : id ∈ processed
      · simp [hcm]
      · simp [hcm, hnorm]
  · decide

/-- C6 witness: a concrete mention-free group message is dropped. -/
theorem c6_witness : (handleMessageReceive [] ⟨none⟩ c6Event).2 = none :=
  c6_theorem.1 [] ⟨none⟩ c6Event c6Msg (by decide) (by decide) (by decide)
    (by decide)

/-- C7 counterexample: normalizing the scenario event yields the text
`hello  world` with TWO spaces — `replace` removes only the mention token
itself, and `trim` touches only the ends — so the claimed result
`hello world` is wrong. -/
theorem c7_counterexample :
    (normalizeEvent c7Cfg c7Event).map InboundMessageContext.text
      = some (("hello  world").toList) ∧
    (normalizeEvent c7Cfg c7Event).map InboundMessageContext.text
      ≠ some (("hello world").toList) := by
  exact ⟨by decide, by decide⟩

/-- C7 amended: for each mention entry the first occurrence of its key is
removed verbatim and the result trimmed at both ends (so the normalized
text of any mentioned message carries no leading or trailing whitespace),
and the scenario input normalizes to exactly `hello  world` — the two
spaces that surrounded the mention token collapse to two adjacent
interior spaces, which trimming does not touch; the message is admitted
since it carries a mention (the code keeps no separate mentionsBot
flag). -/
theorem c7_theorem :
    (∀ (text : List Char) (ms : List Mention), ms ≠ [] →
      trimStr (stripMentions text ms) = stripMentions text ms) ∧
    (normalizeEvent c7Cfg c7Event).map InboundMessageContext.text
      = some (("hello  world").toList) := by
  constructor
  · intro text ms hms
    rcases List.eq_nil_or_concat ms with h | ⟨L, m, h⟩
    · exact absurd h hms
    · subst h
      unfold stripMentions
      rw [List.concat_eq_append, List.foldl_concat]
      exact trimStr_idem _
  · decide

/-- C7 witness: the trimmed-result clause at a concrete input. -/
theorem c7_witness :
    trimStr (stripMentions (("  hi <at>bot</at>  ").toList) [⟨c7Key⟩])
      = stripMentions (("  hi <at>bot</at>  ").toList) [⟨c7Key⟩] :=
  c7_theorem.1 (("  hi <at>bot</at>  ").toList) [⟨c7Key⟩] (by decide)

/-- C8 counterexample: in the streaming scenario with partials A, B, C
the artifact receives FOUR in-place edits (one per partial plus the final
completion edit of the thinking card created before dispatch), not
three. -/
theorem c8_counterexample :
    (c8Trace.filter isEditCardAct).length = 4 ∧
    (c8Trace.filter isEditCardAct).length ≠ 3 := by
  exact ⟨by decide, by decide⟩

/-- C8 amended: the streaming turn for partials A, B, C creates exactly
one artifact (the thinking card, before any payload arrives), performs
four in-place edits — one per partial in streaming style and one final
edit carrying the full accumulated text with the completed header — sends
no plain text, and the last action is the completing edit. -/
theorem c8_theorem :
    (c8Trace.filter isCreateCardAct).length = 1 ∧
    (c8Trace.filter isEditCardAct).length = 4 ∧
    (c8Trace.filter isCreateTextAct).length = 0 ∧
    c8Trace.getLast? = some (FsAction.editCard
      (("A\n\n---\n\nB\n\n---\n\nC").toList) false) := by
  exact ⟨by decide, by decide, by decide, by decide⟩

/-- C9 counterexample: when the card update fails on the second partial,
the turn does NOT flush the accumulated text — no text message carrying
`A\n\n---\n\nB` is ever sent; only the failing payload's own text `B`
(and later `C`) goes out as plain text. -/
theorem c9_counterexample :
    FsAction.createText (("A\n\n---\n\nB").toList) ∉ c9Trace ∧
    FsAction.createText strB ∈ c9Trace := by
  exact ⟨by decide, by decide⟩

/-- C9 amended: a failed card update permanently disables streaming for
the rest of the turn — once the card is inactive no further card edit
(successful or attempted) occurs — and each subsequent payload's own text
is sent as ordinary chunked text messages (`B`, then `C`), while the
accumulated text `A\n\n---\n\nB` is never re-flushed (the card keeps its
last successful content `A`). -/
theorem c9_theorem :
    c9Trace = [FsAction.createCard thinkingText true,
      FsAction.editCard strA true,
      FsAction.editCardFailed (("A\n\n---\n\nB").toList),
      FsAction.createText strB,
      FsAction.createText strC] ∧
    (∀ (useStreaming thinkingMsg : Bool) (updateOk : Nat → Bool)
        (textLimit : Nat) (chunker : List Char → Nat → List (List Char))
        (payloads : List (List Char)) (st : DeliverState),
      st.cardActive = false →
      ∀ a ∈ (deliverAll useStreaming thinkingMsg updateOk textLimit chunker
          st payloads).2,
        (∀ s b, a ≠ FsAction.editCard s b) ∧
        (∀ s, a ≠ FsAction.editCardFailed s)) := by
  constructor
  · decide
  · intro us tm uo tl ch ps st hc
    exact (deliverAll_inactive us tm uo tl ch ps st hc).2

/-- C9 witness: the permanent-fallback clause at a concrete inactive
state. -/
theorem c9_witness :
    ∀ a ∈ (deliverAll true true allUpdatesOk 4000 idChunker
        ⟨false, [], true, 2⟩ [strC]).2,
      (∀ s b, a ≠ FsAction.editCard s b) ∧
      (∀ s, a ≠ FsAction.editCardFailed s) :=
  c9_theorem.2 true true allUpdatesOk 4000 idChunker [strC]
    ⟨false, [], true, 2⟩ rfl

/-- C10 counterexample: on the empty text the early return emits the
single chunk `""` — an empty string — so not every emitted chunk is
non-empty. -/
theorem c10_counterexample :
    chunkText [] 1 = [[]] ∧ ¬(∀ c ∈ chunkText [] 1, c ≠ []) := by
  exact ⟨by decide, by decide⟩

/-- C10 amended: for every limit ≥ 1 the chosen break point of each loop
iteration is at least 1 (so the remainder strictly shrinks and the
segmenter terminates), and for every NON-EMPTY input text every emitted
chunk is non-empty; the empty input is the sole exception, returning the
single empty chunk via the early-return path. -/
theorem c10_theorem (t : List Char) (limit : Nat) (hl : 1 ≤ limit) :
    (limit < t.length → 1 ≤ breakPointOf t limit) ∧
    (t ≠ [] → ∀ c ∈ chunkText t limit, c ≠ []) := by
  constructor
  · intro _
    exact breakPointOf_pos t hl
  · intro ht c hc
    unfold chunkText at hc
    by_cases hfit : t.length ≤ limit
    · rw [if_pos hfit] at hc
      simp at hc
      exact hc ▸ ht
    · rw [if_neg hfit] at hc
      exact chunkLoopF_ne_nil hl t.length t c hc

/-- C10 witness: the amended statement at a concrete text and limit. -/
theorem c10_witness :
    (3 < (("hello world").toList).length →
      1 ≤ breakPointOf (("hello world").toList) 3) ∧
    ((("hello world").toList) ≠ [] →
      ∀ c ∈ chunkText (("hello world").toList) 3, c ≠ []) :=
  c10_theorem (("hello world").toList) 3 (by decide)
